import Mathlib

/-!
Verification of the `aiomigrate` migration engine: a shallow embedding of
the planner (`aiomigrate/plan.py`), the parser (`aiomigrate/parser.py`)
and the orchestrator (`aiomigrate/db.py`), with theorems settling the
specification claims about them.

Python strings are modelled through their character lists (`String.data`),
and Python's lexicographic code-point comparison is the structural
function `strLt` below.  Python `frozenset`s of names are modelled
canonically as lists sorted strictly ascending in that order.
-/

namespace Aiomigrate

/-! ## Entities (`aiomigrate/entities.py`) -/

/-- `entities.MigrationStatus`. -/
inductive MigrationStatus where
  | unapplied
  | applied
deriving DecidableEq, Repr

/-- `entities.Direction`. -/
inductive Direction where
  | up
  | down
deriving DecidableEq, Repr

/-- `entities.Migration`.  The optional `apply_time` (a UTC datetime in the
source) is abstracted to an integer timestamp; nothing in the claims
inspects its value. -/
structure Migration where
  name : String
  status : MigrationStatus
  apply_time : Option Int := none
  up_statements : List String := []
  down_statements : List String := []
  disable_transactions_up : Bool := false
  disable_transactions_down : Bool := false
deriving DecidableEq, Repr

/-! ## Python string comparison -/

/-- Python compares strings lexicographically by code point: `strLt a b`
is `a < b` on the underlying character lists. -/
def strLt : List Char → List Char → Bool
  | [], [] => false
  | [], _ :: _ => true
  | _ :: _, [] => false
  | c :: a, d :: b =>
    if c.toNat < d.toNat then true
    else if d.toNat < c.toNat then false
    else strLt a b

/-- `a < b` on migration names. -/
def nameLt (a b : String) : Bool := strLt a.data b.data

/-- `a ≤ b` on migration names (total: `a ≤ b ↔ ¬ b < a`). -/
def nameLe (a b : String) : Bool := !nameLt b a

/-- String equality through the character lists. -/
def nameEq (a b : String) : Bool := a.data == b.data

/-! ## Name sets

A `frozenset` of names is modelled canonically as a list sorted strictly
ascending in `strLt`; iterating such a set in sorted order is then the
identity, and `sorted(s)` / `sorted(s, reverse=True)` are `s` / `s.reverse`.
-/

/-- Insert a name into a canonical set, keeping it strictly sorted. -/
def setInsert (n : String) : List String → List String
  | [] => [n]
  | m :: s =>
    if nameLt n m then n :: m :: s
    else if nameLt m n then m :: setInsert n s
    else m :: s

/-- `frozenset(l)` for a list of names. -/
def listToSet (l : List String) : List String := l.foldr setInsert []

/-- `frozenset(m.name for m in l)`. -/
def nameSet (l : List Migration) : List String :=
  listToSet (l.map (fun m => m.name))

/-- Set membership. -/
def setMem (n : String) (s : List String) : Bool :=
  s.any (fun m => nameEq m n)

/-- Set difference `a − b` (keeps `a`'s canonical order). -/
def setDiff (a b : List String) : List String :=
  a.filter (fun n => !setMem n b)

/-- `max(s)` of a canonical set: its last element.  `none` on the empty
set, where Python would raise `ValueError` (unreachable at the call
site). -/
def setMax (s : List String) : Option String := s.getLast?

/-- `min(s)` of a canonical set: its first element. -/
def setMin (s : List String) : Option String := s.head?

/-! ## Planner (`aiomigrate/plan.py`) -/

/-- The errors `plan_migrations` can raise: `UnknownAppliedMigration`
(carrying the frozenset of offending names) and
`InvalidMigrationApplyOrder` (carrying `last_applied` and
`first_unapplied`). -/
inductive MigrationPlanError where
  | unknownAppliedMigration (migrations : List String)
  | invalidApplyOrder (last_applied first_unapplied : String)
deriving DecidableEq

/-- `sorted(l, key=lambda m: m.name)`: stable sort of migration records by
name (Python's `sorted` and insertion sort are both stable). -/
def sortByName (l : List Migration) : List Migration :=
  l.insertionSort (fun a b => nameLe a.name b.name = true)

/-- Python slice `l[:limit]`: `l` itself when `limit` is `None`, the first
`n` elements when `limit = n` (the claims only concern `n ≥ 0`). -/
def truncate (limit : Option Nat) (l : List Migration) : List Migration :=
  match limit with
  | none => l
  | some n => l.take n

/-- Lookup in the dict `{m.name: m for m in known_migrations}`: a later
entry with the same name overwrites an earlier one, so the lookup finds
the last record with the given name. -/
def known_mapping (l : List Migration) (n : String) : Option Migration :=
  match l with
  | [] => none
  | m :: rest =>
    match known_mapping rest n with
    | some r => some r
    | none => if nameEq m.name n then some m else none

/-- `plan.plan_migrations`.  The Python builds each returned plan by
sorting the records `known_mapping[name]` for `name` in a frozenset by
`m.name`; since the names in a frozenset are distinct and
`known_mapping[name]` has name `name`, this equals looking the records
up along the (canonically sorted) name list, which is how it is
rendered here. -/
def plan_migrations (known_migrations applied_migrations : List Migration)
    (direction : Direction) (limit : Option Nat) :
    Except MigrationPlanError (List Migration) :=
  if applied_migrations = [] then
    match direction with
    | .up => .ok (truncate limit (sortByName known_migrations))
    | .down => .ok []
  else
    let known_set := nameSet known_migrations
    let applied_set := nameSet applied_migrations
    let unknown_applied := setDiff applied_set known_set
    if unknown_applied ≠ [] then
      .error (.unknownAppliedMigration unknown_applied)
    else
      let unapplied := setDiff known_set applied_set
      -- `last_applied = max(applied_set)`; the order check only fires when
      -- `unapplied` is non-empty (its `min` is defined)
      let order_error : Option (String × String) :=
        match setMax applied_set, setMin unapplied with
        | some last_applied, some first_unapplied =>
          if nameLt first_unapplied last_applied then
            some (last_applied, first_unapplied)
          else none
        | _, _ => none
      match order_error with
      | some (last_applied, first_unapplied) =>
        .error (.invalidApplyOrder last_applied first_unapplied)
      | none =>
        let ret :=
          match direction with
          | .up => unapplied.filterMap (known_mapping known_migrations)
          | .down => applied_set.reverse.filterMap (known_mapping known_migrations)
        .ok (truncate limit ret)

/-! ## Python string helpers for the parser (`aiomigrate/parser.py`) -/

/-- Python's whitespace characters (space, tab, newline, carriage return,
vertical tab, form feed). -/
def is_space (c : Char) : Bool :=
  c == ' ' || c == '\t' || c == '\n' || c == '\r' || c == '\x0b' || c == '\x0c'

/-- `p` is a prefix of `l` (character lists). -/
def isPrefixList : List Char → List Char → Bool
  | [], _ => true
  | _ :: _, [] => false
  | c :: p, d :: l => c == d && isPrefixList p l

/-- Python `line.startswith(p)`. -/
def startswith (line p : String) : Bool := isPrefixList p.data line.data

/-- Python `line.rstrip('\r\n')`. -/
def rstrip_crlf (line : String) : String :=
  String.mk ((line.data.reverse.dropWhile (fun c => c == '\r' || c == '\n')).reverse)

/-- Python `s.rstrip()` on a character list. -/
def rstrip_ws (l : List Char) : List Char :=
  (l.reverse.dropWhile is_space).reverse

/-- Python `s.strip()` on a character list. -/
def strip_ws (l : List Char) : List Char :=
  rstrip_ws (l.dropWhile is_space)

/-- Python `line.split('--', maxsplit=1)[0]`: the part before the first
`--`. -/
def before_comment : List Char → List Char
  | '-' :: '-' :: _ => []
  | c :: rest => c :: before_comment rest
  | [] => []

/-- Python `s.split()`: split on whitespace runs, dropping empty parts;
`cur` holds the current word reversed. -/
def words_aux (cur : List Char) : List Char → List (List Char)
  | [] => if cur = [] then [] else [cur.reverse]
  | c :: rest =>
    if is_space c then
      if cur = [] then words_aux [] rest else cur.reverse :: words_aux [] rest
    else words_aux (c :: cur) rest

/-- Python `s.split()`. -/
def words (l : List Char) : List (List Char) := words_aux [] l

/-! ## Parser (`aiomigrate/parser.py`) -/

/-- `SQL_CMD_PREFIX` in the source: the full directive marker. -/
def SQL_CMD : String := "-- +migrate "

/-- `parser._MigrateCommand`. -/
structure MigrateCommand where
  command : String
  options : List String
deriving DecidableEq, Repr

/-- The errors `parser.MigrationParseError` is raised with, one
constructor per distinct message in the source. -/
inductive MigrationParseError where
  /-- `'incomplete migration command'` -/
  | incompleteCommand
  /-- `'Invalid command: {}'` -/
  | invalidCommand (cmd : String)
  /-- `"The last statement must be ended by a semicolon or '-- +migrate StatementEnd' marker."` -/
  | errNoTerminator
  /-- `"saw '-- +migrate StatementBegin' with no matching '-- +migrate StatementEnd'"` -/
  | unmatchedStatementBegin
  /-- `"no Up/Down annotations found, so no statements were executed."` -/
  | noUpDownFound
deriving DecidableEq, Repr

/-- `parser._parse_command`.  It is only called on lines starting with
`SQL_CMD`, where `line.replace(SQL_CMD_PREFIX, '', 1)` removes exactly
the leading marker characters. -/
def parse_command (line : String) : Except MigrationParseError MigrateCommand :=
  match words (line.data.drop SQL_CMD.data.length) with
  | [] => .error .incompleteCommand
  | c :: opts => .ok ⟨String.mk c, opts.map String.mk⟩

/-- `parser._ends_with_semicolon`: the part of the line before any `--`
comment, right-stripped, ends with `;`. -/
def ends_with_semicolon (line : String) : Bool :=
  (rstrip_ws (before_comment line.data)).getLast? == some ';'

/-- `parser._ParseState`. -/
structure ParseState where
  buf : List Char
  statement_ended : Bool
  ignore_semicolons : Bool
  current_direction : Option Direction
  parsed_migration : Migration
deriving DecidableEq, Repr

/-- `parser._interpret_command`: apply a directive to the parse state. -/
def interpret_command (st : ParseState) (cmd : MigrateCommand) :
    Except MigrationParseError ParseState :=
  if cmd.command = "Up" then
    if !(strip_ws st.buf).isEmpty then .error .errNoTerminator
    else .ok { st with
      buf := []
      current_direction := some .up
      parsed_migration :=
        if cmd.options.any (fun o => nameEq o "notransaction") then
          { st.parsed_migration with disable_transactions_up := true }
        else st.parsed_migration }
  else if cmd.command = "Down" then
    if !(strip_ws st.buf).isEmpty then .error .errNoTerminator
    else .ok { st with
      buf := []
      current_direction := some .down
      parsed_migration :=
        if cmd.options.any (fun o => nameEq o "notransaction") then
          { st.parsed_migration with disable_transactions_down := true }
        else st.parsed_migration }
  else if cmd.command = "StatementBegin" then
    .ok (if st.current_direction ≠ none then
      { st with ignore_semicolons := true }
    else st)
  else if cmd.command = "StatementEnd" then
    .ok (if st.current_direction ≠ none then
      { st with statement_ended := st.ignore_semicolons, ignore_semicolons := false }
    else st)
  else .error (.invalidCommand cmd.command)

/-- One iteration of `parse_migration`'s `for line in content` loop. -/
def process_line (st : ParseState) (rawLine : String) :
    Except MigrationParseError ParseState :=
  let line := rstrip_crlf rawLine
  -- ignore comments except those beginning with '-- +'
  if startswith line "-- " && !startswith line "-- +" then .ok st
  else
    let step1 : Except MigrationParseError ParseState :=
      if startswith line SQL_CMD then
        match parse_command line with
        | .error e => .error e
        | .ok cmd => interpret_command st cmd
      else .ok st
    match step1 with
    | .error e => .error e
    | .ok st =>
      if st.current_direction = none then .ok st
      else
        let st :=
          if !startswith line "-- +" then
            { st with buf := st.buf ++ line.data ++ ['\n'] }
          else st
        -- a statement ends on an unignored trailing semicolon or on a
        -- pending StatementEnd marker
        if (!st.ignore_semicolons && ends_with_semicolon line) || st.statement_ended then
          let mig := st.parsed_migration
          let mig :=
            if st.current_direction = some .up then
              { mig with up_statements := mig.up_statements ++ [String.mk st.buf] }
            else
              { mig with down_statements := mig.down_statements ++ [String.mk st.buf] }
          .ok { st with statement_ended := false, parsed_migration := mig, buf := [] }
        else .ok st

/-- Fold `process_line` over the file's lines, stopping at the first
error. -/
def parse_lines (st : ParseState) : List String → Except MigrationParseError ParseState
  | [] => .ok st
  | l :: rest =>
    match process_line st l with
    | .error e => .error e
    | .ok st' => parse_lines st' rest

/-- The initial parse state of `parse_migration`. -/
def initState (name : String) : ParseState :=
  { buf := []
    statement_ended := false
    ignore_semicolons := false
    current_direction := none
    parsed_migration := { name := name, status := .unapplied } }

/-- `parser.parse_migration`, over the file's lines (Python iterates the
text line by line, each line keeping its terminator, which is
immediately right-stripped). -/
def parse_migration (name : String) (lines : List String) :
    Except MigrationParseError Migration :=
  match parse_lines (initState name) lines with
  | .error e => .error e
  | .ok st =>
    if st.ignore_semicolons then .error .unmatchedStatementBegin
    else if st.current_direction = none then .error .noUpDownFound
    else if !(strip_ws st.buf).isEmpty && !isPrefixList ("-- +".data) st.buf then
      .error .errNoTerminator
    else .ok st.parsed_migration

/-! ## Orchestrator (`aiomigrate/db.py`)

`do_migrate` drives a database connection: it reads the bookkeeping
table, plans, and executes each planned migration's statements followed
by its bookkeeping write, inside one transaction unless the migration
opted out.  The observable connection state is modelled as the sequence
of committed statement effects plus the bookkeeping table's rows, and
`conn.execute`'s outcome on a statement is decided by a failure oracle
on the statement text (the bookkeeping insert/delete queries themselves
are modelled as always succeeding row operations).
-/

/-- `entities.MigrationOptions`. -/
structure MigrationOptions where
  direction : Direction
  limit : Option Nat
deriving DecidableEq, Repr

/-- The observable database state. -/
structure DbState where
  committed : List String
  records : List String
deriving DecidableEq, Repr

/-- `db.get_migration_records`: each bookkeeping row becomes an applied
`Migration` record (the row's timestamp, normalised to UTC in the
source, is abstracted). -/
def get_migration_records (st : DbState) : List Migration :=
  st.records.map (fun n => { name := n, status := .applied, apply_time := some 0 })

/-- Execute a list of statements in order; the result is the state
reached together with `true` on success, or the state just before the
first failing statement together with `false`. -/
def execStatements (fails : String → Bool) (st : DbState) :
    List String → DbState × Bool
  | [] => (st, true)
  | stmt :: rest =>
    if fails stmt then (st, false)
    else execStatements fails { st with committed := st.committed ++ [stmt] } rest

/-- `db.mark_migration`: insert the bookkeeping row on Up, delete it on
Down. -/
def mark_migration (direction : Direction) (st : DbState) (m : Migration) : DbState :=
  match direction with
  | .up => { st with records := st.records ++ [m.name] }
  | .down => { st with records := st.records.filter (fun n => !nameEq n m.name) }

/-- The loop's `statements = migration.up_statements / down_statements`
selection. -/
def direction_statements (direction : Direction) (m : Migration) : List String :=
  match direction with
  | .up => m.up_statements
  | .down => m.down_statements

/-- The loop's `disable_transactions = migration.disable_transactions_up /
_down` selection. -/
def direction_disable (direction : Direction) (m : Migration) : Bool :=
  match direction with
  | .up => m.disable_transactions_up
  | .down => m.disable_transactions_down

/-- One iteration of `do_migrate`'s loop.  With transactions enabled the
migration's statements and its bookkeeping write form one atomic unit:
on a statement failure the state reverts to the transaction's start.
With transactions disabled the statements run as independent steps: the
effects up to the failure persist and no bookkeeping is written.  An
error carries the database state left behind. -/
def apply_one (fails : String → Bool) (direction : Direction) (st : DbState)
    (m : Migration) : Except DbState DbState :=
  let statements := direction_statements direction m
  let disable_transactions := direction_disable direction m
  if !disable_transactions then
    match execStatements fails st statements with
    | (_, false) => .error st
    | (st2, true) => .ok (mark_migration direction st2 m)
  else
    match execStatements fails st statements with
    | (st2, false) => .error st2
    | (st2, true) => .ok (mark_migration direction st2 m)

/-- `do_migrate`'s `for migration in to_apply` loop. -/
def run_plan (fails : String → Bool) (direction : Direction) (st : DbState) :
    List Migration → Except DbState DbState
  | [] => .ok st
  | m :: rest =>
    match apply_one fails direction st m with
    | .error st' => .error st'
    | .ok st' => run_plan fails direction st' rest

/-- How a `do_migrate` run can abort. -/
inductive MigrateError where
  | planError (e : MigrationPlanError)
  | statementError
deriving DecidableEq

/-- `db.do_migrate`: read the applied records, plan, execute the plan in
order and return the number of executed migrations.  An error carries
the database state at the abort point (`ensure_migration_table` only
creates the bookkeeping table, which the model's state always has). -/
def do_migrate (fails : String → Bool) (options : MigrationOptions)
    (known_migrations : List Migration) (st : DbState) :
    Except (MigrateError × DbState) (DbState × Nat) :=
  match plan_migrations known_migrations (get_migration_records st)
      options.direction options.limit with
  | .error e => .error (.planError e, st)
  | .ok to_apply =>
    match run_plan fails options.direction st to_apply with
    | .error st' => .error (.statementError, st')
    | .ok st' => .ok (st', to_apply.length)

-- Equality of run outcomes is decidable, so concrete scenarios can be
-- settled by evaluation.
deriving instance DecidableEq for Except

/-- A sample unapplied record, used to instantiate theorems with
hypotheses at concrete inputs. -/
def migSample (n : String) : Migration :=
  { name := n, status := .unapplied }

/-! ## Lemmas about the string order -/

theorem char_eq_of_toNat_eq {a b : Char} (h : a.toNat = b.toNat) : a = b :=
  Char.ext (UInt32.ext h)

theorem strLt_irrefl (a : List Char) : strLt a a = false := by
  induction a with
  | nil => rfl
  | cons c a ih => simp [strLt, ih]

theorem strLt_asymm : ∀ {a b : List Char}, strLt a b = true → strLt b a = false
  | [], [], h => by simp [strLt] at h
  | [], _ :: _, _ => rfl
  | _ :: _, [], h => by simp [strLt] at h
  | c :: a, d :: b, h => by
    simp only [strLt] at h ⊢
    by_cases h1 : c.toNat < d.toNat
    · simp [h1, Nat.lt_asymm h1]
    · by_cases h2 : d.toNat < c.toNat
      · simp [h1, h2] at h
      · simp only [h1, h2, if_false] at h ⊢
        exact strLt_asymm h

theorem strLt_trans : ∀ {a b c : List Char},
    strLt a b = true → strLt b c = true → strLt a c = true
  | a, [], _, h1, _ => by cases a <;> simp [strLt] at h1
  | _, _ :: _, [], _, h2 => by simp [strLt] at h2
  | [], _ :: _, _ :: _, _, _ => rfl
  | c :: a, d :: b, e :: f, h1, h2 => by
    simp only [strLt] at h1 h2 ⊢
    by_cases hcd : c.toNat < d.toNat <;> by_cases hde : d.toNat < e.toNat
    · simp [Nat.lt_trans hcd hde]
    · by_cases hed : e.toNat < d.toNat
      · simp [hde, hed] at h2
      · have hde' : d.toNat = e.toNat :=
          Nat.le_antisymm (Nat.not_lt.mp hed) (Nat.not_lt.mp hde)
        simp [hde' ▸ hcd]
    · by_cases hdc : d.toNat < c.toNat
      · simp [hcd, hdc] at h1
      · have hcd' : c.toNat = d.toNat :=
          Nat.le_antisymm (Nat.not_lt.mp hdc) (Nat.not_lt.mp hcd)
        simp [hcd' ▸ hde]
    · by_cases hdc : d.toNat < c.toNat
      · simp [hcd, hdc] at h1
      · by_cases hed : e.toNat < d.toNat
        · simp [hde, hed] at h2
        · have hcd' : c = d := char_eq_of_toNat_eq
            (Nat.le_antisymm (Nat.not_lt.mp hdc) (Nat.not_lt.mp hcd))
          have hde' : d = e := char_eq_of_toNat_eq
            (Nat.le_antisymm (Nat.not_lt.mp hed) (Nat.not_lt.mp hde))
          subst hcd'
          subst hde'
          simp only [Nat.lt_irrefl, if_false] at h1 h2 ⊢
          exact strLt_trans h1 h2

theorem strLt_conn : ∀ {a b : List Char},
    strLt a b = false → strLt b a = false → a = b
  | [], [], _, _ => rfl
  | [], _ :: _, h1, _ => by simp [strLt] at h1
  | _ :: _, [], _, h2 => by simp [strLt] at h2
  | c :: a, d :: b, h1, h2 => by
    simp only [strLt] at h1 h2
    rcases Nat.lt_trichotomy c.toNat d.toNat with h | h | h
    · simp [h] at h1
    · have hc : c = d := char_eq_of_toNat_eq h
      subst hc
      simp only [Nat.lt_irrefl, if_false] at h1 h2
      exact congrArg (c :: ·) (strLt_conn h1 h2)
    · simp [h] at h2

theorem nameLt_irrefl (a : String) : nameLt a a = false := strLt_irrefl a.data

theorem nameLt_asymm {a b : String} (h : nameLt a b = true) : nameLt b a = false :=
  strLt_asymm h

theorem nameLt_trans {a b c : String} (h1 : nameLt a b = true)
    (h2 : nameLt b c = true) : nameLt a c = true :=
  strLt_trans h1 h2

theorem nameLt_conn {a b : String} (h1 : nameLt a b = false)
    (h2 : nameLt b a = false) : a = b :=
  String.ext (strLt_conn h1 h2)

theorem nameEq_iff {a b : String} : nameEq a b = true ↔ a = b := by
  constructor
  · intro h
    exact String.ext (beq_iff_eq.mp h)
  · rintro rfl
    simp [nameEq]

/-- The record-sorting relation of `sortByName` is total. -/
instance : IsTotal Migration (fun a b => nameLe a.name b.name = true) := by
  constructor
  intro a b
  by_cases h : nameLt b.name a.name = true
  · right
    simp [nameLe, nameLt_asymm h]
  · left
    have h' : nameLt b.name a.name = false := by
      cases hb : nameLt b.name a.name
      · rfl
      · exact absurd hb h
    simp [nameLe, h']

/-- The record-sorting relation of `sortByName` is transitive. -/
instance : IsTrans Migration (fun a b => nameLe a.name b.name = true) := by
  constructor
  intro a b c h1 h2
  simp only [nameLe, Bool.not_eq_true'] at h1 h2 ⊢
  by_cases hca : nameLt c.name a.name = true
  · exfalso
    by_cases hab : nameLt a.name b.name = true
    · have hcb : nameLt c.name b.name = true := nameLt_trans hca hab
      rw [hcb] at h2
      cases h2
    · have hab' : nameLt a.name b.name = false := by
        cases hx : nameLt a.name b.name
        · rfl
        · exact absurd hx hab
      have hba : a.name = b.name := nameLt_conn hab' h1
      rw [hba] at hca
      rw [hca] at h2
      cases h2
  · cases hx : nameLt c.name a.name
    · rfl
    · exact absurd hx hca

/-! ## Lemmas about canonical name sets -/

theorem not_true_eq_false {b : Bool} (h : ¬ b = true) : b = false := by
  cases b
  · rfl
  · exact absurd rfl h

theorem mem_setInsert {n m : String} : ∀ {s : List String},
    m ∈ setInsert n s ↔ m = n ∨ m ∈ s
  | [] => by simp [setInsert]
  | a :: s => by
    simp only [setInsert]
    by_cases h1 : nameLt n a = true
    · rw [if_pos h1]
      simp only [List.mem_cons]
    · rw [if_neg h1]
      by_cases h2 : nameLt a n = true
      · rw [if_pos h2]
        simp only [List.mem_cons, mem_setInsert]
        tauto
      · rw [if_neg h2]
        have han : a = n := nameLt_conn (not_true_eq_false h2) (not_true_eq_false h1)
        subst han
        simp only [List.mem_cons]
        tauto

theorem setInsert_sorted {n : String} : ∀ {s : List String},
    s.Pairwise (fun a b => nameLt a b = true) →
    (setInsert n s).Pairwise (fun a b => nameLt a b = true)
  | [], _ => by simp [setInsert]
  | a :: s, h => by
    rw [List.pairwise_cons] at h
    simp only [setInsert]
    by_cases h1 : nameLt n a = true
    · rw [if_pos h1]
      refine List.Pairwise.cons ?_ (List.Pairwise.cons h.1 h.2)
      intro x hx
      rcases List.mem_cons.mp hx with rfl | hx
      · exact h1
      · exact nameLt_trans h1 (h.1 x hx)
    · rw [if_neg h1]
      by_cases h2 : nameLt a n = true
      · rw [if_pos h2]
        refine List.Pairwise.cons ?_ (setInsert_sorted h.2)
        intro x hx
        rcases mem_setInsert.mp hx with rfl | hx
        · exact h2
        · exact h.1 x hx
      · rw [if_neg h2]
        exact List.Pairwise.cons h.1 h.2

theorem listToSet_sorted : ∀ l : List String,
    (listToSet l).Pairwise (fun a b => nameLt a b = true)
  | [] => List.Pairwise.nil
  | _ :: l => setInsert_sorted (listToSet_sorted l)

theorem mem_listToSet {n : String} : ∀ {l : List String},
    n ∈ listToSet l ↔ n ∈ l
  | [] => Iff.rfl
  | a :: l => by
    simp only [listToSet, List.foldr_cons]
    rw [show List.foldr setInsert [] l = listToSet l from rfl]
    rw [mem_setInsert]
    simp [mem_listToSet]

theorem setMem_iff {n : String} {s : List String} : setMem n s = true ↔ n ∈ s := by
  simp only [setMem, List.any_eq_true]
  constructor
  · rintro ⟨m, hm, he⟩
    exact (nameEq_iff.mp he) ▸ hm
  · intro h
    exact ⟨n, h, nameEq_iff.mpr rfl⟩

theorem mem_setDiff {n : String} {a b : List String} :
    n ∈ setDiff a b ↔ n ∈ a ∧ n ∉ b := by
  simp only [setDiff, List.mem_filter, Bool.not_eq_true']
  constructor
  · rintro ⟨h1, h2⟩
    refine ⟨h1, fun hc => ?_⟩
    rw [setMem_iff.mpr hc] at h2
    cases h2
  · rintro ⟨h1, h2⟩
    refine ⟨h1, ?_⟩
    cases hx : setMem n b
    · rfl
    · exact absurd (setMem_iff.mp hx) h2

theorem setDiff_sorted {a b : List String}
    (h : a.Pairwise (fun x y => nameLt x y = true)) :
    (setDiff a b).Pairwise (fun x y => nameLt x y = true) :=
  List.Pairwise.filter _ h

/-- A set of names is determined by its members and strict sortedness. -/
theorem sorted_mem_unique : ∀ {s t : List String},
    s.Pairwise (fun a b => nameLt a b = true) →
    t.Pairwise (fun a b => nameLt a b = true) →
    (∀ n, n ∈ s ↔ n ∈ t) → s = t
  | [], [], _, _, _ => rfl
  | [], b :: t, _, _, hm => by
    exact absurd ((hm b).mpr (List.mem_cons_self b t)) (List.not_mem_nil b)
  | a :: s, [], _, _, hm => by
    exact absurd ((hm a).mp (List.mem_cons_self a s)) (List.not_mem_nil a)
  | a :: s, b :: t, hs, ht, hm => by
    rw [List.pairwise_cons] at hs ht
    have hab : a = b := by
      by_contra hne
      have ha : a ∈ b :: t := (hm a).mp (List.mem_cons_self a s)
      have hb : b ∈ a :: s := (hm b).mpr (List.mem_cons_self b t)
      rcases List.mem_cons.mp ha with h | h
      · exact hne h
      · rcases List.mem_cons.mp hb with h' | h'
        · exact hne h'.symm
        · exact absurd (hs.1 b h') (by simp [nameLt_asymm (ht.1 a h)])
    subst hab
    have htails : ∀ n, n ∈ s ↔ n ∈ t := by
      intro n
      constructor
      · intro hn
        have : n ∈ a :: t := (hm n).mp (List.mem_cons_of_mem a hn)
        rcases List.mem_cons.mp this with rfl | h
        · exact absurd (hs.1 n hn) (by simp [nameLt_irrefl])
        · exact h
      · intro hn
        have : n ∈ a :: s := (hm n).mpr (List.mem_cons_of_mem a hn)
        rcases List.mem_cons.mp this with rfl | h
        · exact absurd (ht.1 n hn) (by simp [nameLt_irrefl])
        · exact h
    rw [sorted_mem_unique hs.2 ht.2 htails]

end Aiomigrate

namespace Aiomigrate

/-! ## Planner claims -/

/-- C1: for every known set and non-empty applied set with no applied
name absent from known, if the set of unapplied names is non-empty and
the greatest applied name sorts strictly after the least unapplied
name, then `plan_migrations` fails with `InvalidMigrationApplyOrder`
carrying that greatest applied name as `last_applied` and that least
unapplied name as `first_unapplied`, for both directions and any limit;
it never silently reorders. -/
theorem plan_invalid_apply_order
    (known_migrations applied_migrations : List Migration)
    (direction : Direction) (limit : Option Nat) (la fu : String)
    (hne : applied_migrations ≠ [])
    (hsub : setDiff (nameSet applied_migrations) (nameSet known_migrations) = [])
    (hla : setMax (nameSet applied_migrations) = some la)
    (hfu : setMin (setDiff (nameSet known_migrations) (nameSet applied_migrations)) =
      some fu)
    (hlt : nameLt fu la = true) :
    plan_migrations known_migrations applied_migrations direction limit =
      .error (.invalidApplyOrder la fu) := by
  unfold plan_migrations
  rw [if_neg hne]
  simp [hsub, hla, hfu, hlt]

theorem plan_invalid_apply_order_witness :
    plan_migrations [migSample "a", migSample "b"] [migSample "b"] .up none =
      .error (.invalidApplyOrder "b" "a") :=
  plan_invalid_apply_order [migSample "a", migSample "b"] [migSample "b"]
    .up none "b" "a" (by decide) (by decide) (by decide) (by decide) (by decide)

/-- C2: for every known set and non-empty applied set, if the set
difference of applied names minus known names is non-empty then
`plan_migrations` fails with `UnknownAppliedMigration` carrying exactly
that name set, for both directions and any limit. -/
theorem plan_unknown_applied
    (known_migrations applied_migrations : List Migration)
    (direction : Direction) (limit : Option Nat)
    (hne : applied_migrations ≠ [])
    (hunk : setDiff (nameSet applied_migrations) (nameSet known_migrations) ≠ []) :
    plan_migrations known_migrations applied_migrations direction limit =
      .error (.unknownAppliedMigration
        (setDiff (nameSet applied_migrations) (nameSet known_migrations))) := by
  unfold plan_migrations
  rw [if_neg hne]
  simp [hunk]

theorem plan_unknown_applied_witness :
    plan_migrations [migSample "a"] [migSample "a", migSample "b"] .down (some 3) =
      .error (.unknownAppliedMigration
        (setDiff (nameSet [migSample "a", migSample "b"]) (nameSet [migSample "a"]))) :=
  plan_unknown_applied [migSample "a"] [migSample "a", migSample "b"] .down (some 3)
    (by decide) (by decide)

/-- C4: for every known set, when the applied set is empty
`plan_migrations` never fails: for direction Up it returns the known
records sorted ascending by name, truncated to the limit when one is
given, and for direction Down it returns the empty plan regardless of
known and limit. -/
theorem plan_empty_applied (known_migrations : List Migration) (limit : Option Nat) :
    plan_migrations known_migrations [] .up limit =
      .ok (truncate limit (sortByName known_migrations)) ∧
    (sortByName known_migrations).Perm known_migrations ∧
    List.Sorted (fun a b => nameLe a.name b.name = true) (sortByName known_migrations) ∧
    plan_migrations known_migrations [] .down limit = .ok [] :=
  ⟨rfl, List.perm_insertionSort _ _, List.sorted_insertionSort _ _, rfl⟩

/-- Truncation commutes with everything `plan_migrations` does: the plan
for a given limit is the untruncated plan truncated, and errors do not
depend on the limit. -/
theorem plan_migrations_limit (known applied : List Migration)
    (direction : Direction) (limit : Option Nat) :
    plan_migrations known applied direction limit =
      (plan_migrations known applied direction none).map (truncate limit) := by
  unfold plan_migrations
  by_cases hne : applied = []
  · rw [if_pos hne, if_pos hne]
    cases direction <;> cases limit <;> simp [truncate, Except.map]
  · rw [if_neg hne, if_neg hne]
    by_cases hunk : setDiff (nameSet applied) (nameSet known) ≠ []
    · simp [hunk, Except.map]
    · simp only [hunk, if_neg, ite_false, if_false]
      cases hmax : setMax (nameSet applied) with
      | none => cases direction <;> cases limit <;> simp [hunk, hmax, truncate, Except.map]
      | some la =>
        cases hmin : setMin (setDiff (nameSet known) (nameSet applied)) with
        | none =>
          cases direction <;> cases limit <;> simp [hunk, hmax, hmin, truncate, Except.map]
        | some fu =>
          cases hlt : nameLt fu la <;>
            cases direction <;> cases limit <;>
            simp [hunk, hmax, hmin, hlt, truncate, Except.map]

/-- C5: for every known and applied set on which `plan_migrations`
succeeds, every direction, and every limit `L ≥ 0`, the plan for limit
`L` is the untruncated plan cut to its first `L` elements, so its
length is `min L (length of the untruncated plan)`; and the limit never
changes which error is raised. -/
theorem plan_limit_semantics (known applied : List Migration)
    (direction : Direction) (L : Nat) :
    (∀ full, plan_migrations known applied direction none = .ok full →
       plan_migrations known applied direction (some L) = .ok (full.take L) ∧
       (full.take L).length = min L full.length) ∧
    (∀ e, plan_migrations known applied direction none = .error e ↔
       plan_migrations known applied direction (some L) = .error e) := by
  constructor
  · intro full hfull
    rw [plan_migrations_limit known applied direction (some L), hfull]
    exact ⟨rfl, List.length_take L full⟩
  · intro e
    rw [plan_migrations_limit known applied direction (some L)]
    cases h : plan_migrations known applied direction none <;> simp [Except.map]

theorem plan_limit_semantics_witness :
    plan_migrations [migSample "a", migSample "b"] [] .up (some 1) =
      .ok ((sortByName [migSample "a", migSample "b"]).take 1) ∧
    ((sortByName [migSample "a", migSample "b"]).take 1).length =
      min 1 (sortByName [migSample "a", migSample "b"]).length :=
  (plan_limit_semantics [migSample "a", migSample "b"] [] .up 1).1
    (sortByName [migSample "a", migSample "b"]) rfl

end Aiomigrate

namespace Aiomigrate

theorem known_mapping_not_mem : ∀ {l : List Migration} {n : String},
    (∀ m ∈ l, m.name ≠ n) → known_mapping l n = none
  | [], _, _ => rfl
  | a :: l, n, h => by
    have hrec := known_mapping_not_mem (fun m hm => h m (List.mem_cons_of_mem a hm))
    simp only [known_mapping, hrec]
    rw [if_neg]
    intro hc
    exact h a (List.mem_cons_self a l) (nameEq_iff.mp hc)

theorem known_mapping_mem_nodup : ∀ {l : List Migration} {m : Migration},
    (l.map (fun x => x.name)).Nodup → m ∈ l → known_mapping l m.name = some m
  | [], m, _, hm => absurd hm (List.not_mem_nil m)
  | a :: l, m, hnd, hm => by
    rw [List.map_cons, List.nodup_cons] at hnd
    rcases List.mem_cons.mp hm with rfl | hmem
    · have hnone : known_mapping l m.name = none := known_mapping_not_mem
        (fun x hx hc => hnd.1 (hc ▸ List.mem_map_of_mem (fun y => y.name) hx))
      simp [known_mapping, hnone, nameEq_iff]
    · have hrec := known_mapping_mem_nodup hnd.2 hmem
      simp [known_mapping, hrec]

theorem filterMap_known_mapping {known : List Migration} : ∀ {L : List Migration},
    (∀ m ∈ L, known_mapping known m.name = some m) →
    (L.map (fun m => m.name)).filterMap (known_mapping known) = L
  | [], _ => rfl
  | m :: L, h => by
    rw [List.map_cons, List.filterMap_cons, h m (List.mem_cons_self m L),
      filterMap_known_mapping (fun x hx => h x (List.mem_cons_of_mem m hx))]

theorem listToSet_perm {l1 l2 : List String} (h : l1.Perm l2) :
    listToSet l1 = listToSet l2 :=
  sorted_mem_unique (listToSet_sorted l1) (listToSet_sorted l2)
    (fun n => by rw [mem_listToSet, mem_listToSet]; exact h.mem_iff)

theorem listToSet_idem (l : List String) : listToSet (listToSet l) = listToSet l :=
  sorted_mem_unique (listToSet_sorted _) (listToSet_sorted l) (fun _ => mem_listToSet)

theorem setDiff_self (a : List String) : setDiff a a = [] :=
  List.filter_eq_nil_iff.mpr (fun n hn => by simp [setMem_iff.mpr hn])

theorem plan_down_all_applied (known applied : List Migration)
    (hne : applied ≠ [])
    (hAS : nameSet applied = nameSet known) :
    plan_migrations known applied .down none =
      .ok ((nameSet known).reverse.filterMap (known_mapping known)) := by
  unfold plan_migrations
  rw [if_neg hne]
  simp only [hAS, setDiff_self]
  cases hmax : setMax (nameSet known) <;> simp [hmax, setMin, truncate]

theorem sortByName_names_eq (known : List Migration)
    (hnd : (known.map (fun m => m.name)).Nodup) :
    (sortByName known).map (fun m => m.name) = nameSet known := by
  have hsort : List.Sorted (fun a b => nameLe a.name b.name = true) (sortByName known) :=
    List.sorted_insertionSort _ _
  have hperm : (sortByName known).Perm known := List.perm_insertionSort _ _
  apply sorted_mem_unique
  · rw [List.pairwise_map]
    have hnd2 : ((sortByName known).map (fun m => m.name)).Nodup :=
      ((hperm.map (fun m => m.name)).nodup_iff).mpr hnd
    have h2 : (sortByName known).Pairwise (fun a b => a.name ≠ b.name) :=
      List.pairwise_map.mp hnd2
    refine (List.Pairwise.and hsort h2).imp ?_
    intro a b hab
    rcases hab with ⟨hle, hne⟩
    cases hx : nameLt a.name b.name
    · exfalso
      have hba : nameLt b.name a.name = false := by
        have := hle
        simp only [nameLe] at this
        cases hy : nameLt b.name a.name
        · rfl
        · rw [hy] at this
          cases this
      exact hne (nameLt_conn hx hba)
    · rfl
  · exact listToSet_sorted _
  · intro n
    exact Iff.trans (hperm.map (fun m => m.name)).mem_iff mem_listToSet.symm

/-- C6: for every known set with distinct non-empty names, feeding the
full Up plan back as the applied set and planning Down reverses it
exactly: the Down plan is the Up plan's records in reverse, hence the
same record set sorted descending by name. -/
theorem plan_roundtrip (known : List Migration)
    (hnd : (known.map (fun m => m.name)).Nodup)
    (_hnames : ∀ m ∈ known, m.name ≠ "") :
    ∃ up, plan_migrations known [] .up none = .ok up ∧
      plan_migrations known up .down none = .ok up.reverse ∧
      List.Sorted (fun a b => nameLe b.name a.name = true) up.reverse := by
  have hperm : (sortByName known).Perm known := List.perm_insertionSort _ _
  have hsort : List.Sorted (fun a b => nameLe a.name b.name = true) (sortByName known) :=
    List.sorted_insertionSort _ _
  refine ⟨sortByName known, rfl, ?_, List.pairwise_reverse.mpr hsort⟩
  by_cases hk : sortByName known = []
  · have hknil : known = [] := by
      have := hperm.length_eq
      rw [hk] at this
      exact List.length_eq_zero.mp this.symm
    rw [hk, hknil]
    rfl
  · rw [plan_down_all_applied known (sortByName known) hk ?hAS]
    case hAS =>
      show listToSet ((sortByName known).map (fun m => m.name)) = nameSet known
      rw [sortByName_names_eq known hnd]
      exact listToSet_idem _
    rw [← sortByName_names_eq known hnd, List.filterMap_reverse,
      filterMap_known_mapping
        (fun m hm => known_mapping_mem_nodup hnd (hperm.subset hm))]

theorem plan_roundtrip_witness :
    ∃ up, plan_migrations [migSample "b", migSample "a"] [] .up none = .ok up ∧
      plan_migrations [migSample "b", migSample "a"] up .down none = .ok up.reverse ∧
      List.Sorted (fun a b => nameLe b.name a.name = true) up.reverse :=
  plan_roundtrip [migSample "b", migSample "a"] (by decide) (by decide)

end Aiomigrate

namespace Aiomigrate

/-- C7: the four-line Up/Down file parses with exactly one Up statement
and one Down statement, each keeping its trailing newline and assigned
to the direction that was active when it completed. -/
theorem parse_basic_up_down :
    (parse_migration "0001_init" ["-- +migrate Up", "CREATE TABLE t(x int);",
        "-- +migrate Down", "DROP TABLE t;"]).map
      (fun m => (m.up_statements, m.down_statements)) =
      .ok (["CREATE TABLE t(x int);\n"], ["DROP TABLE t;\n"]) := by decide

/-- C9: after the last line is consumed, `parse_migration` fails when
ignore-semicolons mode is still on (unterminated StatementBegin block),
when no Up/Down direction was ever seen, or when the final buffer still
holds unterminated non-directive content; in particular an empty or
directive-less file fails with the no-annotations error. -/
theorem parse_end_validation (name : String) (lines : List String) (st : ParseState)
    (hrun : parse_lines (initState name) lines = .ok st) :
    (st.ignore_semicolons = true →
       parse_migration name lines = .error .unmatchedStatementBegin) ∧
    (st.ignore_semicolons = false → st.current_direction = none →
       parse_migration name lines = .error .noUpDownFound) ∧
    (st.ignore_semicolons = false → st.current_direction ≠ none →
       (strip_ws st.buf).isEmpty = false → isPrefixList ("-- +".data) st.buf = false →
       parse_migration name lines = .error .errNoTerminator) ∧
    (∀ nm : String, parse_migration nm [] = .error .noUpDownFound) ∧
    (∀ nm : String, parse_migration nm ["CREATE TABLE t(x int);"] =
       .error .noUpDownFound) := by
  refine ⟨?_, ?_, ?_, fun nm => rfl, fun nm => rfl⟩
  · intro h1
    unfold parse_migration
    rw [hrun]
    simp [h1]
  · intro h1 h2
    unfold parse_migration
    rw [hrun]
    simp [h1, h2]
  · intro h1 h2 h3 h4
    unfold parse_migration
    rw [hrun]
    simp [h1, h2, h3, h4]

theorem parse_end_validation_witness :
    parse_migration "m" ["-- +migrate Up", "-- +migrate StatementBegin", "SELECT 1;"] =
      .error .unmatchedStatementBegin :=
  (parse_end_validation "m"
    ["-- +migrate Up", "-- +migrate StatementBegin", "SELECT 1;"] _ rfl).1 rfl

end Aiomigrate

namespace Aiomigrate

theorem interpret_statement_end (st : ParseState)
    (hdir : st.current_direction ≠ none) :
    interpret_command st { command := "StatementEnd", options := [] } =
      .ok { st with statement_ended := st.ignore_semicolons,
                    ignore_semicolons := false } := by
  unfold interpret_command
  rw [if_neg (by decide), if_neg (by decide), if_neg (by decide), if_pos rfl,
    if_pos hdir]

/-- C8: with a direction active and ignore-semicolons mode on (inside a
`StatementBegin` block), a `-- +migrate StatementEnd` directive line
ends that mode and terminates the current statement at that line
regardless of semicolon content: the whole buffered block — internal
semicolons included — is appended to the active direction's statement
sequence as one single statement, and nothing else changes. -/
theorem statement_end_flushes (st : ParseState) (d : Direction)
    (hdir : st.current_direction = some d)
    (hign : st.ignore_semicolons = true) :
    ∃ st', process_line st "-- +migrate StatementEnd" = .ok st' ∧
      st'.ignore_semicolons = false ∧
      st'.statement_ended = false ∧
      st'.buf = [] ∧
      st'.current_direction = some d ∧
      (d = .up →
        st'.parsed_migration.up_statements =
          st.parsed_migration.up_statements ++ [String.mk st.buf] ∧
        st'.parsed_migration.down_statements = st.parsed_migration.down_statements) ∧
      (d = .down →
        st'.parsed_migration.down_statements =
          st.parsed_migration.down_statements ++ [String.mk st.buf] ∧
        st'.parsed_migration.up_statements = st.parsed_migration.up_statements) := by
  have hne : st.current_direction ≠ none := by
    rw [hdir]
    exact fun h => Option.noConfusion h
  have hmid := interpret_statement_end st hne
  rw [hign] at hmid
  unfold process_line
  rw [if_neg (by decide)]
  simp only [show startswith (rstrip_crlf "-- +migrate StatementEnd") SQL_CMD = true
      from rfl, if_true,
    show parse_command (rstrip_crlf "-- +migrate StatementEnd") =
      .ok { command := "StatementEnd", options := [] } from rfl,
    hmid]
  simp only [hdir,
    show (!startswith (rstrip_crlf "-- +migrate StatementEnd") "-- +") = false from rfl,
    show ends_with_semicolon (rstrip_crlf "-- +migrate StatementEnd") = false from rfl,
    Bool.false_eq_true, if_false, ite_false, Bool.and_false, Bool.false_or]
  cases d with
  | up =>
    refine ⟨ParseState.mk [] false false (some .up)
        (Migration.mk st.parsed_migration.name st.parsed_migration.status
          st.parsed_migration.apply_time
          (st.parsed_migration.up_statements ++ [String.mk st.buf])
          st.parsed_migration.down_statements
          st.parsed_migration.disable_transactions_up
          st.parsed_migration.disable_transactions_down),
      ?_, ?_, ?_, ?_, ?_, ?_, ?_⟩
    · simp
    · rfl
    · rfl
    · rfl
    · rfl
    · intro _
      exact ⟨rfl, rfl⟩
    · intro h
      cases h
  | down =>
    refine ⟨ParseState.mk [] false false (some .down)
        (Migration.mk st.parsed_migration.name st.parsed_migration.status
          st.parsed_migration.apply_time
          st.parsed_migration.up_statements
          (st.parsed_migration.down_statements ++ [String.mk st.buf])
          st.parsed_migration.disable_transactions_up
          st.parsed_migration.disable_transactions_down),
      ?_, ?_, ?_, ?_, ?_, ?_, ?_⟩
    · simp
    · rfl
    · rfl
    · rfl
    · rfl
    · intro h
      cases h
    · intro _
      exact ⟨rfl, rfl⟩

theorem statement_end_flushes_witness :
    ∃ st', process_line
        (ParseState.mk ("SELECT 1; SELECT 2;\n".data) false true (some .up)
          (migSample "m"))
        "-- +migrate StatementEnd" = .ok st' ∧
      st'.ignore_semicolons = false ∧
      st'.statement_ended = false ∧
      st'.buf = [] ∧
      st'.current_direction = some .up ∧
      (Direction.up = .up →
        st'.parsed_migration.up_statements =
          (migSample "m").up_statements ++ [String.mk "SELECT 1; SELECT 2;\n".data] ∧
        st'.parsed_migration.down_statements = (migSample "m").down_statements) ∧
      (Direction.up = .down →
        st'.parsed_migration.down_statements =
          (migSample "m").down_statements ++ [String.mk "SELECT 1; SELECT 2;\n".data] ∧
        st'.parsed_migration.up_statements = (migSample "m").up_statements) :=
  statement_end_flushes
    (ParseState.mk ("SELECT 1; SELECT 2;\n".data) false true (some .up) (migSample "m"))
    .up rfl rfl

end Aiomigrate

namespace Aiomigrate

theorem isPrefixList_iff_exists : ∀ {p l : List Char},
    isPrefixList p l = true ↔ ∃ t, l = p ++ t
  | [], l => by simp [isPrefixList]
  | c :: p, [] => by
    simp only [isPrefixList]
    constructor
    · intro h
      cases h
    · rintro ⟨t, ht⟩
      cases ht
  | c :: p, d :: l => by
    simp only [isPrefixList, Bool.and_eq_true, beq_iff_eq]
    constructor
    · rintro ⟨rfl, h⟩
      rcases isPrefixList_iff_exists.mp h with ⟨t, rfl⟩
      exact ⟨t, rfl⟩
    · rintro ⟨t, ht⟩
      injection ht with h1 h2
      exact ⟨h1.symm, isPrefixList_iff_exists.mpr ⟨t, h2⟩⟩

theorem interpret_command_se (st : ParseState) (cmd : MigrateCommand)
    (stA : ParseState) (h : interpret_command st cmd = .ok stA)
    (hse : st.statement_ended = false) :
    stA.statement_ended = false ∨
      (stA.statement_ended = true ∧ stA.current_direction ≠ none) := by
  unfold interpret_command at h
  split_ifs at h
  all_goals cases h
  all_goals try (left; exact hse)
  rename_i hdir
  cases hig : st.ignore_semicolons
  · left
    rfl
  · right
    exact ⟨rfl, hdir⟩

theorem process_line_se (st : ParseState) (line : String) (stB : ParseState)
    (hok : process_line st line = .ok stB) (hse : st.statement_ended = false) :
    stB.statement_ended = false := by
  simp only [process_line] at hok
  split at hok
  · cases hok
    exact hse
  · split at hok
    · cases hok
    · rename_i stA heq
      have hA : stA.statement_ended = false ∨
          (stA.statement_ended = true ∧ stA.current_direction ≠ none) := by
        split at heq
        · split at heq
          · cases heq
          · exact interpret_command_se st _ stA heq hse
        · cases heq
          left
          exact hse
      split at hok
      · cases hok
        rcases hA with h | h
        · exact h
        · rename_i hnone
          exact absurd hnone h.2
      · by_cases hbuf : (!startswith (rstrip_crlf line) "-- +") = true
        · rw [if_pos hbuf] at hok
          split at hok
          · cases hok
            rfl
          · rename_i hcond
            cases hok
            simp only [Bool.or_eq_true, not_or] at hcond
            exact not_true_eq_false hcond.2
        · rw [if_neg hbuf] at hok
          split at hok
          · cases hok
            rfl
          · rename_i hcond
            cases hok
            simp only [Bool.or_eq_true, not_or] at hcond
            exact not_true_eq_false hcond.2

end Aiomigrate

namespace Aiomigrate

theorem process_line_error (st : ParseState) (line : String)
    (e : MigrationParseError) (h : process_line st line = .error e) :
    startswith (rstrip_crlf line) SQL_CMD = true := by
  simp only [process_line] at h
  split at h
  · cases h
  · split at h
    · rename_i e1 heq
      split at heq
      · rename_i hsw
        exact hsw
      · cases heq
    · rename_i stA heq
      split at h
      · cases h
      · by_cases hbuf : (!startswith (rstrip_crlf line) "-- +") = true
        · rw [if_pos hbuf] at h
          split at h
          · cases h
          · cases h
        · rw [if_neg hbuf] at h
          split at h
          · cases h
          · cases h

end Aiomigrate

namespace Aiomigrate

/-- C10: a line that begins with `-- +` but not with the full
`-- +migrate ` marker is silently discarded: it raises no error, is
never appended to any statement buffer, and changes no parse state
(the statement-ended flag being false at the start of a line is an
invariant, per the second conjunct); only lines carrying the full
marker can trigger the invalid-command parse error. -/
theorem directive_like_line_ignored (st : ParseState) (rawLine : String)
    (hse : st.statement_ended = false)
    (h1 : startswith (rstrip_crlf rawLine) "-- +" = true)
    (h2 : startswith (rstrip_crlf rawLine) SQL_CMD = false) :
    process_line st rawLine = .ok st ∧
    (∀ st2 line stB, process_line st2 line = .ok stB → st2.statement_ended = false →
       stB.statement_ended = false) ∧
    (∀ st2 line c, process_line st2 line = .error (.invalidCommand c) →
       startswith (rstrip_crlf line) SQL_CMD = true) := by
  refine ⟨?_, process_line_se, fun st2 line c h => process_line_error st2 line _ h⟩
  rcases isPrefixList_iff_exists.mp h1 with ⟨rest, hdata⟩
  have hsw0 : startswith (rstrip_crlf rawLine) "-- " = true :=
    isPrefixList_iff_exists.mpr ⟨'+' :: rest, by rw [hdata]; rfl⟩
  have hsemi : ends_with_semicolon (rstrip_crlf rawLine) = false := by
    unfold ends_with_semicolon
    rw [show (rstrip_crlf rawLine).data = '-' :: '-' :: ' ' :: '+' :: rest from hdata]
    rfl
  simp only [process_line, h1, h2, hsw0, hsemi, hse, Bool.not_true, Bool.and_false,
    Bool.false_eq_true, if_false, Bool.or_false, Bool.false_or, ite_false]
  split
  · rfl
  · simp [hsemi, hse]


theorem directive_like_line_ignored_witness :
    process_line (ParseState.mk ("SELECT 1".data) false false (some .up) (migSample "m"))
        "-- +foo" =
      .ok (ParseState.mk ("SELECT 1".data) false false (some .up) (migSample "m")) ∧
    (∀ st2 line stB, process_line st2 line = .ok stB → st2.statement_ended = false →
       stB.statement_ended = false) ∧
    (∀ st2 line c, process_line st2 line = .error (.invalidCommand c) →
       startswith (rstrip_crlf line) SQL_CMD = true) :=
  directive_like_line_ignored
    (ParseState.mk ("SELECT 1".data) false false (some .up) (migSample "m"))
    "-- +foo" rfl (by decide) (by decide)

end Aiomigrate

namespace Aiomigrate

theorem execStatements_ok (fails : String → Bool) :
    ∀ (stmts : List String) (st s2 : DbState),
    execStatements fails st stmts = (s2, true) →
    s2.committed = st.committed ++ stmts ∧ s2.records = st.records
  | [], st, s2, h => by
    cases h
    exact ⟨(List.append_nil _).symm, rfl⟩
  | stmt :: rest, st, s2, h => by
    unfold execStatements at h
    split at h
    · cases h
    · rcases execStatements_ok fails rest _ s2 h with ⟨h1, h2⟩
      refine ⟨?_, h2⟩
      rw [h1]
      simp

theorem apply_one_ok_up (fails : String → Bool) (st s2 : DbState) (m : Migration)
    (h : apply_one fails .up st m = .ok s2) :
    s2.committed = st.committed ++ m.up_statements ∧
    s2.records = st.records ++ [m.name] := by
  simp only [apply_one, direction_statements, direction_disable] at h
  split at h <;>
  · split at h
    · cases h
    · rename_i heq
      cases h
      rcases execStatements_ok fails m.up_statements st _ heq with ⟨h1, h2⟩
      refine ⟨h1, ?_⟩
      simp only [mark_migration]
      rw [h2]

theorem apply_one_fail (fails : String → Bool) (d : Direction) (st : DbState)
    (m : Migration)
    (hflag : direction_disable d m = false)
    (hexec : (execStatements fails st (direction_statements d m)).2 = false) :
    apply_one fails d st m = .error st := by
  simp only [apply_one, hflag, Bool.not_false, if_true]
  rcases hp : execStatements fails st (direction_statements d m) with ⟨s2, b⟩
  rw [hp] at hexec
  simp only [] at hexec
  rw [hexec]

theorem run_plan_append (fails : String → Bool) (d : Direction) :
    ∀ (pre rest : List Migration) (st : DbState),
    run_plan fails d st (pre ++ rest) =
      match run_plan fails d st pre with
      | .error e => .error e
      | .ok st1 => run_plan fails d st1 rest
  | [], rest, st => rfl
  | m :: pre, rest, st => by
    simp only [List.cons_append, run_plan]
    cases apply_one fails d st m with
    | error e => rfl
    | ok st1 => exact run_plan_append fails d pre rest st1

theorem run_plan_up_effects (fails : String → Bool) :
    ∀ (p : List Migration) (st stF : DbState),
    run_plan fails .up st p = .ok stF →
    stF.committed = st.committed ++ (p.map (fun m => m.up_statements)).flatten ∧
    stF.records = st.records ++ p.map (fun m => m.name)
  | [], st, stF, h => by
    cases h
    simp
  | m :: p, st, stF, h => by
    unfold run_plan at h
    revert h
    cases hap : apply_one fails .up st m with
    | error e =>
      intro h
      cases h
    | ok st1 =>
      intro h
      rcases apply_one_ok_up fails st st1 m hap with ⟨h1, h2⟩
      rcases run_plan_up_effects fails p st1 stF h with ⟨h3, h4⟩
      constructor
      · rw [h3, h1]
        simp
      · rw [h4, h2]
        simp

end Aiomigrate

namespace Aiomigrate

/-- C3: for every plan produced by the reconciler, `do_migrate` executes
the migrations strictly in plan order (on success the committed
statements and bookkeeping rows accumulate exactly in plan order, and
the returned count is the plan's length); and when a statement of a
transaction-enabled migration fails, the run aborts with the database
exactly as it was after the migrations before it — their statements and
bookkeeping committed — while the failing migration's statements and
bookkeeping are rolled back and nothing after it executes. -/
theorem do_migrate_transactional (fails : String → Bool) (st : DbState)
    (known_migrations : List Migration) (options : MigrationOptions)
    (p : List Migration)
    (hplan : plan_migrations known_migrations (get_migration_records st)
      options.direction options.limit = .ok p) :
    (∀ stF, run_plan fails options.direction st p = .ok stF →
       do_migrate fails options known_migrations st = .ok (stF, p.length)) ∧
    (options.direction = .up → ∀ stF, run_plan fails .up st p = .ok stF →
       stF.committed = st.committed ++ (p.map (fun m => m.up_statements)).flatten ∧
       stF.records = st.records ++ p.map (fun m => m.name)) ∧
    (∀ pre m post st1, p = pre ++ m :: post →
       run_plan fails options.direction st pre = .ok st1 →
       direction_disable options.direction m = false →
       (execStatements fails st1
         (direction_statements options.direction m)).2 = false →
       do_migrate fails options known_migrations st =
         .error (.statementError, st1)) := by
  refine ⟨?_, ?_, ?_⟩
  · intro stF hrun
    unfold do_migrate
    simp only [hplan, hrun]
  · intro _ stF hrun
    exact run_plan_up_effects fails p st stF hrun
  · intro pre m post st1 hsplit hpre hflag hexec
    have hm : run_plan fails options.direction st1 (m :: post) = .error st1 := by
      unfold run_plan
      rw [apply_one_fail fails options.direction st1 m hflag hexec]
    unfold do_migrate
    simp only [hplan]
    rw [hsplit, run_plan_append]
    simp only [hpre, hm]

theorem do_migrate_transactional_witness :
    do_migrate (fun s => nameEq s "BOOM") (MigrationOptions.mk .up none)
      [Migration.mk "001" .unapplied none ["A;"] [] false false,
       Migration.mk "002" .unapplied none ["BOOM"] [] false false]
      (DbState.mk [] []) =
      .error (.statementError, DbState.mk ["A;"] ["001"]) :=
  (do_migrate_transactional (fun s => nameEq s "BOOM") (DbState.mk [] [])
      [Migration.mk "001" .unapplied none ["A;"] [] false false,
       Migration.mk "002" .unapplied none ["BOOM"] [] false false]
      (MigrationOptions.mk .up none)
      [Migration.mk "001" .unapplied none ["A;"] [] false false,
       Migration.mk "002" .unapplied none ["BOOM"] [] false false]
      (by decide)).2.2
    [Migration.mk "001" .unapplied none ["A;"] [] false false]
    (Migration.mk "002" .unapplied none ["BOOM"] [] false false)
    [] (DbState.mk ["A;"] ["001"]) rfl (by decide) (by decide) (by decide)

end Aiomigrate
